import Mathlib

/-!
Verification of the blackjack game engine of `card-games-be`.

Shallow embedding of the Go sources:
  * `internal/game/card.go`   — `Card`, `Card.GetValue`
  * `internal/game/deck.go`   — `Deck`, `NewDeck`, `DrawCard`
  * `internal/game/blackjack.go` — `BlackjackGame` and its operations
    (`AddPlayer`, `RemovePlayer`, `PlaceBet`, `Start`, `DealInitialCards`,
    `Hit`, `Stand`, `NextPlayer`, `DealerTurn`, `DetermineWinners`,
    `CalculateHandScore`, `PrepareForNextRound`).

Modelling conventions:
  * Go `string`-backed enum types (`Suit`, `Rank`, `GameStatus`,
    `PlayerStatus`) are Lean `String`s with the same constants, so the Go
    zero value `""` is representable (it matters: `DrawCard` on an empty
    deck returns the zero `Card`).
  * Go `int` is modelled as unbounded `Int`; no claim under study depends
    on 64-bit wraparound.
  * `int(float64(bet) * 1.5)` is modelled as `Int.tdiv (3 * bet) 2`,
    which agrees with the Go expression exactly whenever `|bet| < 2^52`
    (the float is exact there and Go's float→int conversion truncates
    toward zero, as does `Int.tdiv`).
  * Mutation is explicit state passing: each method returns the new
    `BlackjackGame` (plus its Go return values).
  * `uuid.New()`, `CreatedAt`/`UpdatedAt` timestamps and the `ID`/`Name`
    metadata of the game are omitted: no claim mentions them.
  * `Deck.Shuffle` draws from `math/rand`; it is modelled by passing the
    shuffled card list as a parameter, constrained to be a permutation of
    the fresh deck where a claim needs it.
-/

namespace CardGames

abbrev Suit := String
abbrev Rank := String

def Hearts : Suit := "Hearts"
def Diamonds : Suit := "Diamonds"
def Clubs : Suit := "Clubs"
def Spades : Suit := "Spades"

def Ace : Rank := "Ace"
def Two : Rank := "2"
def Three : Rank := "3"
def Four : Rank := "4"
def Five : Rank := "5"
def Six : Rank := "6"
def Seven : Rank := "7"
def Eight : Rank := "8"
def Nine : Rank := "9"
def Ten : Rank := "10"
def Jack : Rank := "Jack"
def Queen : Rank := "Queen"
def King : Rank := "King"

structure Card where
  suit : Suit
  rank : Rank
  value : Int
  face : Bool
deriving DecidableEq, Repr

/-- The Go zero value `Card{}`, returned by `DrawCard` on an empty deck. -/
def Card.zero : Card := ⟨"", "", 0, false⟩

instance : Inhabited Card := ⟨Card.zero⟩

/-- `Card.GetValue` from `card.go`: blackjack value of a card. -/
def Card.GetValue (c : Card) : Int :=
  if c.rank = Ace then 11
  else if c.rank = Ten ∨ c.rank = Jack ∨ c.rank = Queen ∨ c.rank = King then 10
  else if c.rank = Two then 2
  else if c.rank = Three then 3
  else if c.rank = Four then 4
  else if c.rank = Five then 5
  else if c.rank = Six then 6
  else if c.rank = Seven then 7
  else if c.rank = Eight then 8
  else if c.rank = Nine then 9
  else 0

structure Deck where
  cards : List Card
deriving DecidableEq, Repr

def suitList : List Suit := [Hearts, Diamonds, Clubs, Spades]

def rankList : List Rank :=
  [Ace, Two, Three, Four, Five, Six, Seven, Eight, Nine, Ten, Jack, Queen, King]

/-- `NewDeck` from `deck.go`: the 52 cards in suit-major enumeration order,
each face up, stored `Value` 0. -/
def NewDeck : Deck :=
  ⟨suitList.flatMap fun s => rankList.map fun r => ⟨s, r, 0, true⟩⟩

/-- `Deck.DrawCard`: removes and returns the front card; fails on empty. -/
def Deck.DrawCard (d : Deck) : Option (Card × Deck) :=
  match d.cards with
  | [] => none
  | c :: rest => some (c, ⟨rest⟩)

/-- The pattern `card, _ := deck.DrawCard()` from `DealInitialCards`: the
failure flag is ignored, so an empty deck yields the zero `Card` and
leaves the deck as is. -/
def Deck.drawIgnoringError (d : Deck) : Card × Deck :=
  (d.DrawCard).getD (Card.zero, d)

abbrev GameStatus := String

def Waiting : GameStatus := "waiting"
def Betting : GameStatus := "betting"
def InProgress : GameStatus := "inProgress"
def Completed : GameStatus := "completed"

abbrev PlayerStatus := String

def PlayerActive : PlayerStatus := "active"
def PlayerBusted : PlayerStatus := "busted"
def PlayerStood : PlayerStatus := "stood"
def PlayerBlackjack : PlayerStatus := "blackjack"

structure Player where
  id : String
  name : String
  hand : List Card
  score : Int
  status : PlayerStatus
  bet : Int
  balance : Int
  isActive : Bool
deriving DecidableEq, Repr

/-- The Go zero value of `Player`; only used as the default for total list
indexing (`List.getD`), mirroring positions where the Go code would index a
slice. Its status `""` is none of the four defined player statuses. -/
instance : Inhabited Player := ⟨⟨"", "", [], 0, "", 0, 0, false⟩⟩

structure Dealer where
  hand : List Card
  score : Int
deriving DecidableEq, Repr

structure BlackjackGame where
  players : List Player
  dealer : Dealer
  deck : Deck
  status : GameStatus
  minBet : Int
  maxBet : Int
  currentPlayerIndex : Nat
deriving DecidableEq, Repr

/-- `NewBlackjackGame` (uuid and timestamps omitted); the freshly shuffled
deck is passed as a parameter. -/
def NewBlackjackGame (minBet maxBet : Int) (shuffled : List Card) : BlackjackGame :=
  { players := []
    dealer := ⟨[], 0⟩
    deck := ⟨shuffled⟩
    status := Waiting
    minBet := minBet
    maxBet := maxBet
    currentPlayerIndex := 0 }

/-- First pass of `CalculateHandScore`: sum of `GetValue` over the hand. -/
def sumValues (hand : List Card) : Int :=
  (hand.map Card.GetValue).sum

/-- Number of aces in the hand (the `aces` counter of the first pass). -/
def countAces (hand : List Card) : Nat :=
  (hand.filter fun c => c.rank == Ace).length

/-- Second pass of `CalculateHandScore`:
`for aces > 0 && score > 21 { score -= 10; aces-- }`. -/
def reduceAces : Nat → Int → Int
  | 0, s => s
  | a + 1, s => if 21 < s then reduceAces a (s - 10) else s

/-- `BlackjackGame.CalculateHandScore` (it ignores the receiver, so it is a
plain function of the hand). -/
def CalculateHandScore (hand : List Card) : Int :=
  reduceAces (countAces hand) (sumValues hand)

/-- Closed form of the hand score, written from the spec's wording: the raw
sum, reduced by 10 once per ace while the total exceeds 21 and an ace
counted as 11 remains — i.e. by `min (number of aces) ⌈(sum − 21)/10⌉`
tens when the raw sum exceeds 21. -/
def specHandScore (hand : List Card) : Int :=
  let s := sumValues hand
  let a : Int := countAces hand
  if s ≤ 21 then s else s - 10 * min a ((s - 21 + 9) / 10)

/-- Loop body of `AddPlayer` over the seats: acting on the first seat whose
id matches. While the game is `Waiting`, a rejoining player's seat gets
`IsActive = true`; in any other status the seat is returned untouched.
Returns the updated seat list and the returned seat. -/
def addExisting : List Player → String → GameStatus → Option (List Player × Player)
  | [], _, _ => none
  | p :: ps, pid, st =>
    if p.id = pid then
      if st = Waiting then
        some (({p with isActive := true}) :: ps, {p with isActive := true})
      else
        some (p :: ps, p)
    else
      (addExisting ps pid st).map fun r => (p :: r.1, r.2)

/-- The fresh seat appended by `AddPlayer`. -/
def newSeat (pid pname : String) (initialBalance : Int) : Player :=
  { id := pid, name := pname, hand := [], score := 0, status := PlayerActive,
    bet := 0, balance := initialBalance, isActive := false }

/-- `BlackjackGame.AddPlayer`: the second component is the returned
`*Player` (`none` for Go's `nil`). -/
def AddPlayer (g : BlackjackGame) (pid pname : String) (initialBalance : Int) :
    BlackjackGame × Option Player :=
  match addExisting g.players pid g.status with
  | some (ps, seat) => ({g with players := ps}, some seat)
  | none =>
    if g.status ≠ Waiting then (g, none)
    else
      ({g with players := g.players ++ [newSeat pid pname initialBalance]},
       some (newSeat pid pname initialBalance))

/-- Loop body of `RemovePlayer`: drops the first seat whose id matches. -/
def removeFirst : List Player → String → Option (List Player)
  | [], _ => none
  | p :: ps, pid =>
    if p.id = pid then some ps
    else (removeFirst ps pid).map (p :: ·)

/-- `BlackjackGame.RemovePlayer`. -/
def RemovePlayer (g : BlackjackGame) (pid : String) : BlackjackGame × Bool :=
  match removeFirst g.players pid with
  | none => (g, false)
  | some ps => ({g with players := ps}, true)

/-- Loop body of `PlaceBet`: on the first seat whose id matches, fail if
the balance is short, otherwise record the bet and debit the balance. -/
def placeBetPlayers : List Player → String → Int → Option (List Player)
  | [], _, _ => none
  | p :: ps, pid, amount =>
    if p.id = pid then
      if p.balance < amount then none
      else some ({p with bet := amount, balance := p.balance - amount} :: ps)
    else
      (placeBetPlayers ps pid amount).map (p :: ·)

/-- `BlackjackGame.PlaceBet`. -/
def PlaceBet (g : BlackjackGame) (pid : String) (amount : Int) :
    BlackjackGame × Bool :=
  if g.status ≠ Betting then (g, false)
  else if amount < g.minBet ∨ amount > g.maxBet then (g, false)
  else
    match placeBetPlayers g.players pid amount with
    | none => (g, false)
    | some ps => ({g with players := ps}, true)

/-- Player-dealing loop of `DealInitialCards`: two cards to each seat in
order (draw errors ignored), the score recomputed on the grown hand, and
status set to `PlayerBlackjack` on a total of exactly 21. -/
def dealToPlayers : Deck → List Player → Deck × List Player
  | d, [] => (d, [])
  | d, p :: ps =>
    let r1 := d.drawIgnoringError
    let c1 := {r1.1 with face := true}
    let r2 := r1.2.drawIgnoringError
    let c2 := {r2.1 with face := true}
    let hand := p.hand ++ [c1, c2]
    let score := CalculateHandScore hand
    let p' : Player :=
      { p with hand := hand, score := score,
               status := if score = 21 then PlayerBlackjack else p.status }
    let rest := dealToPlayers r2.2 ps
    (rest.1, p' :: rest.2)

/-- `BlackjackGame.DealInitialCards`: deal the players, then two cards to
the dealer (second face down); the dealer's visible score is the first
card's value. -/
def DealInitialCards (g : BlackjackGame) : BlackjackGame :=
  let r := dealToPlayers g.deck g.players
  let r1 := r.1.drawIgnoringError
  let dealerCard1 := {r1.1 with face := true}
  let r2 := r1.2.drawIgnoringError
  let dealerCard2 := {r2.1 with face := false}
  { g with players := r.2, deck := r2.2,
           dealer := { hand := g.dealer.hand ++ [dealerCard1, dealerCard2],
                       score := dealerCard1.GetValue } }

/-- `g.Players[0].IsActive = true` at the end of `Start`. -/
def activateFirst : List Player → List Player
  | [] => []
  | p :: ps => {p with isActive := true} :: ps

/-- `BlackjackGame.Start`. -/
def Start (g : BlackjackGame) : BlackjackGame × Bool :=
  if g.status ≠ Betting ∨ g.players.length = 0 then (g, false)
  else if g.players.any fun p => p.bet == 0 then (g, false)
  else
    let g1 := DealInitialCards g
    ({ g1 with status := InProgress, currentPlayerIndex := 0,
               players := activateFirst g1.players }, true)

/-- `int(float64(bet) * 1.5)` from `DetermineWinners`, exact for
`|bet| < 2^52`: truncated-toward-zero division of `3 * bet` by 2. -/
def blackjackExtra (bet : Int) : Int :=
  Int.tdiv (3 * bet) 2

/-- Per-player body of the `DetermineWinners` loop, as a function of the
dealer's final hand size and score. -/
def settlePlayer (dealerHandLen : Nat) (dealerScore : Int) (p : Player) : Player :=
  if p.status = PlayerBusted then p
  else if p.status = PlayerBlackjack then
    if dealerHandLen = 2 ∧ dealerScore = 21 then
      {p with balance := p.balance + p.bet}
    else
      {p with balance := p.balance + p.bet + blackjackExtra p.bet}
  else if dealerScore > 21 then {p with balance := p.balance + p.bet * 2}
  else if p.score > dealerScore then {p with balance := p.balance + p.bet * 2}
  else if p.score = dealerScore then {p with balance := p.balance + p.bet}
  else p

/-- `BlackjackGame.DetermineWinners`. -/
def DetermineWinners (g : BlackjackGame) : BlackjackGame :=
  {g with players := g.players.map (settlePlayer g.dealer.hand.length g.dealer.score)}

def flipUp (c : Card) : Card := {c with face := true}

/-- Dealer draw loop of `DealerTurn`: while the recomputed total is below
17, draw (face up, appended); an empty deck breaks the loop. Returns the
remaining deck and the final hand. -/
def dealerDraw : List Card → List Card → List Card × List Card
  | [], hand => ([], hand)
  | c :: rest, hand =>
    if CalculateHandScore hand < 17 then dealerDraw rest (hand ++ [flipUp c])
    else (c :: rest, hand)

/-- `BlackjackGame.DealerTurn`: flip every dealer card face up, draw to 17,
settle all bets, mark the game `Completed`. -/
def DealerTurn (g : BlackjackGame) : BlackjackGame :=
  let flipped := g.dealer.hand.map flipUp
  let r := dealerDraw g.deck.cards flipped
  let g' := { g with deck := ⟨r.1⟩,
                     dealer := {hand := r.2, score := CalculateHandScore r.2} }
  {DetermineWinners g' with status := Completed}

/-- Scan loop of `NextPlayer`: starting at `start`, at most `fuel` seats
are examined (with wrap-around) for one whose status is `PlayerActive`. -/
def findActiveFrom (ps : List Player) (start : Nat) : Nat → Option Nat
  | 0 => none
  | fuel + 1 =>
    if (ps.getD start default).status = PlayerActive then some start
    else findActiveFrom ps ((start + 1) % ps.length) fuel

/-- `BlackjackGame.NextPlayer`: find the next seat (after the current one,
wrapping) still `PlayerActive` and mark it active; if the scan returns to
its start, run the dealer's turn instead. -/
def NextPlayer (g : BlackjackGame) : BlackjackGame :=
  let n := g.players.length
  let start := (g.currentPlayerIndex + 1) % n
  match findActiveFrom g.players start n with
  | some i =>
    { g with currentPlayerIndex := i,
             players := g.players.set i {g.players.getD i default with isActive := true} }
  | none => DealerTurn g

/-- Loop body of `Hit` over the seats: the first seat matching
`id = pid ∧ isActive ∧ status = PlayerActive` takes the drawn card; the
Bool records whether that seat busted (score over 21). -/
def hitUpdate : List Player → String → Card → Option (List Player × Bool)
  | [], _, _ => none
  | p :: ps, pid, c =>
    if p.id = pid ∧ p.isActive = true ∧ p.status = PlayerActive then
      let hand := p.hand ++ [c]
      let score := CalculateHandScore hand
      if 21 < score then
        some ({ p with hand := hand, score := score,
                       status := PlayerBusted, isActive := false } :: ps, true)
      else
        some ({p with hand := hand, score := score} :: ps, false)
    else
      (hitUpdate ps pid c).map fun r => (p :: r.1, r.2)

/-- `BlackjackGame.Hit`: the drawn card is returned on success (`none`
models Go's `(Card{}, false)`). Every failure (wrong status, no seat in
turn, empty deck) leaves the game untouched. On a bust the turn advances. -/
def Hit (g : BlackjackGame) (pid : String) : BlackjackGame × Option Card :=
  if g.status ≠ InProgress then (g, none)
  else
    match g.deck.cards with
    | [] => (g, none)
    | c :: rest =>
      match hitUpdate g.players pid (flipUp c) with
      | none => (g, none)
      | some (ps, busted) =>
        let g' := {g with deck := ⟨rest⟩, players := ps}
        (if busted then NextPlayer g' else g', some (flipUp c))

/-- Loop body of `Stand` over the seats: the first seat matching
`id = pid ∧ isActive ∧ status = PlayerActive` becomes `PlayerStood` and
inactive. -/
def standUpdate : List Player → String → Option (List Player)
  | [], _ => none
  | p :: ps, pid =>
    if p.id = pid ∧ p.isActive = true ∧ p.status = PlayerActive then
      some ({p with status := PlayerStood, isActive := false} :: ps)
    else
      (standUpdate ps pid).map (p :: ·)

/-- `BlackjackGame.Stand`. -/
def Stand (g : BlackjackGame) (pid : String) : BlackjackGame × Bool :=
  if g.status ≠ InProgress then (g, false)
  else
    match standUpdate g.players pid with
    | none => (g, false)
    | some ps => (NextPlayer {g with players := ps}, true)

/-- `BlackjackGame.PrepareForNextRound` (no status guard in the code); the
freshly shuffled deck is passed as a parameter. -/
def PrepareForNextRound (g : BlackjackGame) (shuffled : List Card) : BlackjackGame :=
  { g with deck := ⟨shuffled⟩,
           dealer := {hand := [], score := 0},
           players := g.players.map fun p =>
             { p with hand := [], score := 0, status := PlayerActive,
                      bet := 0, isActive := false },
           status := Betting }

/-- The per-seat reset performed by `PrepareForNextRound`. -/
def resetSeat (p : Player) : Player :=
  { p with hand := [], score := 0, status := PlayerActive,
           bet := 0, isActive := false }

/-! ### Observers and spec-side definitions -/

/-- The identity of a card for conservation purposes: its (suit, rank)
pair. `Face` and the unused `Value` field are presentation state. -/
def cardKey (c : Card) : Suit × Rank := (c.suit, c.rank)

/-- All cards currently held in player hands, in seating order. -/
def handsCards (ps : List Player) : List Card :=
  ps.flatMap Player.hand

/-- The identity multiset of a list of cards. -/
def keysOf (l : List Card) : Multiset (Suit × Rank) :=
  (l.map cardKey : List (Suit × Rank))

/-- The multiset of card identities in the deck, the dealer's hand and all
player hands of a game. -/
def gameCards (g : BlackjackGame) : Multiset (Suit × Rank) :=
  ((g.deck.cards ++ g.dealer.hand ++ handsCards g.players).map cardKey : List (Suit × Rank))

/-- The identity multiset of the standard 52-card deck. -/
def fullDeckKeys : Multiset (Suit × Rank) :=
  (NewDeck.cards.map cardKey : List (Suit × Rank))

/-- Number of seats whose turn flag is set. -/
def countActive (ps : List Player) : Nat :=
  (ps.filter fun p => p.isActive).length

/-- The turn invariant on states between engine operations: while betting
no seat is active, while in progress exactly one is. -/
def TurnInv (g : BlackjackGame) : Prop :=
  (g.status = Betting → countActive g.players = 0) ∧
  (g.status = InProgress → countActive g.players = 1)

instance (g : BlackjackGame) : Decidable (TurnInv g) := by
  unfold TurnInv; infer_instance

/-- Modelled from the spec's settlement wording (amended for the 3:2
truncation): the net amount credited to a seat at settlement, as a
function of the dealer's final hand size and score. Busted seats get
nothing; blackjack seats get their bet back on a dealer two-card 21 and
`bet + ⌊1.5 · bet⌋` otherwise; remaining seats get `2 · bet` on a dealer
bust or higher score, their bet back on a tie, nothing otherwise. -/
def payoutPerSpec (dealerHandLen : Nat) (dealerScore : Int) (p : Player) : Int :=
  if p.status = PlayerBusted then 0
  else if p.status = PlayerBlackjack then
    if dealerHandLen = 2 ∧ dealerScore = 21 then p.bet
    else p.bet + blackjackExtra p.bet
  else if dealerScore > 21 ∨ p.score > dealerScore then 2 * p.bet
  else if p.score = dealerScore then p.bet
  else 0

/-- A player action in the `InProgress` phase. -/
inductive Move where
  | hit (pid : String)
  | stand (pid : String)

/-- Run one player action, keeping only the resulting state. -/
def applyMove (g : BlackjackGame) : Move → BlackjackGame
  | Move.hit pid => (Hit g pid).1
  | Move.stand pid => (Stand g pid).1

/-- Run a sequence of player actions. -/
def applyMoves (g : BlackjackGame) : List Move → BlackjackGame
  | [] => g
  | m :: ms => applyMoves (applyMove g m) ms

/-! ### Concrete states for counterexamples and witnesses -/

def mkCard (s : Suit) (r : Rank) : Card := ⟨s, r, 0, true⟩

/-- A seat used by several concrete states. -/
def mkSeat (pid : String) (status : PlayerStatus) (bet balance : Int)
    (isActive : Bool) : Player :=
  { id := pid, name := pid, hand := [], score := 0, status := status,
    bet := bet, balance := balance, isActive := isActive }

/-- Settlement state for C1: dealer shows a two-card 19, the only seat
holds a blackjack with an odd bet of 5. -/
def gOddBet : BlackjackGame :=
  { players := [mkSeat "a" PlayerBlackjack 5 0 false]
    dealer := ⟨[mkCard Spades Ten, mkCard Spades Nine], 19⟩
    deck := ⟨[]⟩
    status := InProgress
    minBet := 1, maxBet := 1000
    currentPlayerIndex := 0 }

/-- Settlement state for C7: the dealer reached 21 with three cards; the
only seat holds a blackjack with a bet of 10. -/
def gDealer3 : BlackjackGame :=
  { players := [mkSeat "a" PlayerBlackjack 10 0 false]
    dealer := ⟨[mkCard Spades Seven, mkCard Hearts Seven, mkCard Clubs Seven], 21⟩
    deck := ⟨[]⟩
    status := InProgress
    minBet := 1, maxBet := 1000
    currentPlayerIndex := 0 }

/-- Waiting-room state for C8: one seat, turn flag clear. -/
def gWait : BlackjackGame :=
  { players := [mkSeat "a" PlayerActive 0 500 false]
    dealer := ⟨[], 0⟩
    deck := ⟨NewDeck.cards⟩
    status := Waiting
    minBet := 10, maxBet := 1000
    currentPlayerIndex := 0 }

/-- Betting state for C6's witness: one seat with balance 100. -/
def gBetting : BlackjackGame :=
  { players := [mkSeat "a" PlayerActive 0 100 false]
    dealer := ⟨[], 0⟩
    deck := ⟨NewDeck.cards⟩
    status := Betting
    minBet := 10, maxBet := 1000
    currentPlayerIndex := 0 }

/-- In-progress state with an empty deck for C5's witness. -/
def gEmptyDeck : BlackjackGame :=
  { players := [mkSeat "a" PlayerActive 10 90 true]
    dealer := ⟨[mkCard Spades Ten, mkCard Spades Nine], 19⟩
    deck := ⟨[]⟩
    status := InProgress
    minBet := 10, maxBet := 1000
    currentPlayerIndex := 0 }

/-- Completed state for C9's witness. -/
def gDone : BlackjackGame :=
  { players := [{mkSeat "a" PlayerStood 10 150 false with
                  hand := [mkCard Hearts Ten, mkCard Hearts Nine], score := 19}]
    dealer := ⟨[mkCard Spades Ten, mkCard Spades Ten], 20⟩
    deck := ⟨[]⟩
    status := Completed
    minBet := 10, maxBet := 1000
    currentPlayerIndex := 0 }

/-- Betting state for C10's witness: the single seat will be dealt an ace
and a king. -/
def gBJ : BlackjackGame :=
  { players := [mkSeat "a" PlayerActive 10 90 false]
    dealer := ⟨[], 0⟩
    deck := ⟨[mkCard Spades Ace, mkCard Spades King, mkCard Hearts Nine,
              mkCard Hearts Seven, mkCard Clubs Two]⟩
    status := Betting
    minBet := 10, maxBet := 1000
    currentPlayerIndex := 0 }

/-- Twenty-six distinct player ids. -/
def ids26 : List String :=
  ["a", "b", "c", "d", "e", "f", "g", "h", "i", "j", "k", "l", "m",
   "n", "o", "p", "q", "r", "s", "t", "u", "v", "w", "x", "y", "z"]

/-- C3's counterexample round, built with the engine's own operations:
26 players join a fresh table, the round is reset to betting (fresh
52-card deck), everyone bets the minimum, and the round starts. Dealing
needs 54 cards, so the last two draws fail and are silently ignored. -/
def g26Ready : BlackjackGame :=
  ids26.foldl (fun g pid => (PlaceBet g pid 10).1)
    (PrepareForNextRound
      (ids26.foldl (fun g pid => (AddPlayer g pid pid 1000).1)
        (NewBlackjackGame 10 1000 NewDeck.cards))
      NewDeck.cards)

/-- C4's counterexample round, built with the engine's own operations:
two players join, the round is reset to betting, both bet, the round
starts (seat "a" is the active turn-holder), and then seat "a" is
removed mid-round. -/
def gRemoved : BlackjackGame :=
  (RemovePlayer
    (Start
      (PlaceBet
        (PlaceBet
          (PrepareForNextRound
            (AddPlayer (AddPlayer (NewBlackjackGame 10 1000 NewDeck.cards)
                "a" "a" 1000).1
              "b" "b" 1000).1
            NewDeck.cards)
          "a" 10).1
        "b" 10).1).1
    "a").1

/-! ### Hand scoring (C2) -/

/-- The ace-conversion loop in closed form: starting from total `s` with
`a` aces still counted as 11, the loop subtracts `10` exactly
`min a ⌈(s − 21)/10⌉` times when `s` exceeds 21. -/
theorem reduceAces_closed (a : Nat) :
    ∀ s : Int, reduceAces a s =
      if s ≤ 21 then s else s - 10 * min (a : Int) ((s - 21 + 9) / 10) := by
  induction a with
  | zero =>
    intro s
    simp only [reduceAces, Nat.cast_zero]
    by_cases hs : s ≤ 21
    · rw [if_pos hs]
    · rw [if_neg hs, min_eq_left (show (0 : Int) ≤ (s - 21 + 9) / 10 by omega)]
      ring
  | succ a ih =>
    intro s
    simp only [reduceAces]
    by_cases h : 21 < s
    · rw [if_pos h, ih (s - 10), if_neg (show ¬s ≤ 21 by omega)]
      by_cases h31 : s ≤ 31
      · rw [if_pos (show s - 10 ≤ 21 by omega),
            show (s - 21 + 9) / 10 = 1 by omega]
        push_cast
        rw [min_eq_right (show (1 : Int) ≤ (a : Int) + 1 by omega)]
        ring
      · rw [if_neg (show ¬s - 10 ≤ 21 by omega),
            show (s - 21 + 9) / 10 = (s - 10 - 21 + 9) / 10 + 1 by omega]
        push_cast
        rw [min_add_add_right]
        ring
    · rw [if_neg h, if_pos (show s ≤ 21 by omega)]

/-- C2: the hand score is the sum of card values (ace 11, ten and face
cards 10, numerals at face value) reduced by 10 once per ace while the
total exceeds 21 and an ace counted as 11 remains; the empty hand scores
0, and the four spec examples hold. The embedding is a pure function of
the hand, so determinism and absence of mutation are structural. -/
theorem c2_calculateHandScore_spec :
    (∀ hand, CalculateHandScore hand = specHandScore hand) ∧
    CalculateHandScore [] = 0 ∧
    CalculateHandScore [mkCard Spades Ace, mkCard Hearts King] = 21 ∧
    CalculateHandScore [mkCard Spades Ace, mkCard Hearts Ace] = 12 ∧
    CalculateHandScore [mkCard Spades Ace, mkCard Hearts Ace, mkCard Clubs Nine] = 21 ∧
    CalculateHandScore [mkCard Spades Five, mkCard Hearts Six, mkCard Clubs Queen] = 21 := by
  refine ⟨fun hand => ?_, by decide, by decide, by decide, by decide, by decide⟩
  simp only [CalculateHandScore, specHandScore]
  rw [reduceAces_closed]

/-! ### Settlement (C1, C7) -/

/-- The settlement loop body credits each seat with exactly the spec-side
payout (with the 3:2 blackjack bonus truncated to an integer). -/
theorem settlePlayer_eq (L : Nat) (S : Int) (p : Player) :
    settlePlayer L S p = {p with balance := p.balance + payoutPerSpec L S p} := by
  obtain ⟨pid, pname, phand, pscore, pstatus, pbet, pbal, pact⟩ := p
  unfold settlePlayer payoutPerSpec
  split_ifs <;> (try tauto) <;> simp_all [Player.mk.injEq] <;> ring

/-- C1 counterexample: in `gOddBet` the only seat holds a blackjack with
bet 5 against a dealer two-card 19, and settlement credits it 12 — not
`bet + 1.5 · bet = 12.5`; formally, twice the balance change differs from
five times the bet. -/
theorem c1_counterexample :
    ((DetermineWinners gOddBet).players.headD default).balance = 12 ∧
    ¬ 2 * (((DetermineWinners gOddBet).players.headD default).balance -
            (gOddBet.players.headD default).balance) =
        5 * (gOddBet.players.headD default).bet := by
  decide

/-- C1 (amended): settlement changes exactly each seat's balance, by the
spec payout with the blackjack bonus `⌊1.5 · bet⌋` (exactly `1.5 · bet`
only for even bets): busted seats get nothing; blackjack seats get a full
refund against a dealer two-card 21 and `bet + ⌊1.5 · bet⌋` otherwise;
every other seat gets `2 · bet` when the dealer busts or is outscored,
a refund on a tie, nothing otherwise; dealer, deck and status are
untouched. -/
theorem c1_settlement (g : BlackjackGame) :
    (DetermineWinners g).players = g.players.map
      (fun p => {p with balance :=
        p.balance + payoutPerSpec g.dealer.hand.length g.dealer.score p}) ∧
    (DetermineWinners g).dealer = g.dealer ∧
    (DetermineWinners g).deck = g.deck ∧
    (DetermineWinners g).status = g.status := by
  refine ⟨?_, rfl, rfl, rfl⟩
  simp only [DetermineWinners]
  exact List.map_congr_left fun p _ =>
    settlePlayer_eq g.dealer.hand.length g.dealer.score p

/-- C7 counterexample: in `gDealer3` the dealer holds a three-card 21 and
the only seat holds a blackjack with bet 10; settlement credits 25
(the 3:2 payout), not the bet-refund 10 the claim requires. -/
theorem c7_counterexample :
    ((DetermineWinners gDealer3).players.headD default).balance = 25 ∧
    ¬ ((DetermineWinners gDealer3).players.headD default).balance =
        (gDealer3.players.headD default).balance +
          (gDealer3.players.headD default).bet := by
  decide

/-- C7 (amended): when settlement occurs with the dealer holding a 21 made
of three or more cards, a seat with status Blackjack receives the 3:2
payout `bet + ⌊1.5 · bet⌋`, not a push; the push happens exactly when the
dealer holds two cards totaling 21. -/
theorem c7_blackjack_vs_dealer21 (g : BlackjackGame) (i : Nat) (p : Player)
    (hp : g.players[i]? = some p) (hbj : p.status = PlayerBlackjack) :
    (g.dealer.hand.length ≠ 2 →
      (DetermineWinners g).players[i]? =
        some {p with balance := p.balance + p.bet + blackjackExtra p.bet}) ∧
    (g.dealer.hand.length = 2 → g.dealer.score = 21 →
      (DetermineWinners g).players[i]? =
        some {p with balance := p.balance + p.bet}) := by
  have hbusted : ¬p.status = PlayerBusted := by rw [hbj]; decide
  constructor
  · intro hlen
    simp only [DetermineWinners, List.getElem?_map, hp, Option.map_some', settlePlayer]
    rw [if_neg hbusted, if_pos hbj, if_neg (by tauto)]
  · intro hlen hscore
    simp only [DetermineWinners, List.getElem?_map, hp, Option.map_some', settlePlayer]
    rw [if_neg hbusted, if_pos hbj, if_pos ⟨hlen, hscore⟩]

/-! ### Joining (C8) -/

theorem addExisting_not_seated (pid : String) (st : GameStatus) :
    ∀ ps : List Player, (∀ q ∈ ps, q.id ≠ pid) → addExisting ps pid st = none := by
  intro ps
  induction ps with
  | nil => intro _; rfl
  | cons p ps ih =>
    intro h
    simp only [addExisting, if_neg (h p (List.mem_cons_self p ps))]
    rw [ih fun q hq => h q (List.mem_cons_of_mem p hq)]
    rfl

theorem addExisting_seated_waiting (pid : String) (p : Player) (hp : p.id = pid) :
    ∀ pre post : List Player, (∀ q ∈ pre, q.id ≠ pid) →
      addExisting (pre ++ p :: post) pid Waiting =
        some (pre ++ {p with isActive := true} :: post, {p with isActive := true}) := by
  intro pre
  induction pre with
  | nil => intro post _; simp [addExisting, hp]
  | cons q pre ih =>
    intro post h
    simp only [List.cons_append, addExisting, List.append_eq,
      if_neg (h q (List.mem_cons_self q pre))]
    rw [ih post fun r hr => h r (List.mem_cons_of_mem q hr)]
    rfl

theorem addExisting_seated_other (pid : String) (st : GameStatus) (p : Player)
    (hp : p.id = pid) (hst : st ≠ Waiting) :
    ∀ pre post : List Player, (∀ q ∈ pre, q.id ≠ pid) →
      addExisting (pre ++ p :: post) pid st = some (pre ++ p :: post, p) := by
  intro pre
  induction pre with
  | nil => intro post _; simp [addExisting, hp, hst]
  | cons q pre ih =>
    intro post h
    simp only [List.cons_append, addExisting, List.append_eq,
      if_neg (h q (List.mem_cons_self q pre))]
    rw [ih post fun r hr => h r (List.mem_cons_of_mem q hr)]
    rfl

/-- C8 counterexample: in the Waiting game `gWait` the seat of "a" has its
turn flag clear; re-adding "a" returns a game whose seat has the flag set,
so the seat (and the game) are not left unchanged. -/
theorem c8_counterexample :
    (gWait.players.headD default).isActive = false ∧
    ((AddPlayer gWait "a" "n" 5).1.players.headD default).isActive = true ∧
    ¬ (AddPlayer gWait "a" "n" 5).1 = gWait := by
  decide

/-- C8 (amended): re-adding a seated player returns the existing seat: in
any status other than Waiting the seat and the whole game are unchanged,
while in Waiting the seat's turn flag is set to true and every other field
of the seat and of the game is unchanged; once the status has left
Waiting, adding an unknown player id is a failing no-op. -/
theorem c8_addPlayer (g : BlackjackGame) (pid pname : String) (bal : Int) :
    (∀ pre p post, g.players = pre ++ p :: post → (∀ q ∈ pre, q.id ≠ pid) →
      p.id = pid →
      (g.status ≠ Waiting → AddPlayer g pid pname bal = (g, some p)) ∧
      (g.status = Waiting → AddPlayer g pid pname bal =
        ({g with players := pre ++ {p with isActive := true} :: post},
         some {p with isActive := true}))) ∧
    ((∀ q ∈ g.players, q.id ≠ pid) → g.status ≠ Waiting →
      AddPlayer g pid pname bal = (g, none)) := by
  constructor
  · intro pre p post hps hpre hp
    constructor
    · intro hst
      simp only [AddPlayer, hps, addExisting_seated_other pid g.status p hp hst pre post hpre]
      rw [show {g with players := pre ++ p :: post} = g by rw [← hps]]
    · intro hst
      simp only [AddPlayer, hps, hst,
        addExisting_seated_waiting pid p hp pre post hpre]
  · intro h hst
    simp only [AddPlayer, addExisting_not_seated pid g.status g.players h, if_pos hst]

/-! ### Betting (C6) -/

theorem placeBetPlayers_not_seated (pid : String) (amt : Int) :
    ∀ ps : List Player, (∀ q ∈ ps, q.id ≠ pid) → placeBetPlayers ps pid amt = none := by
  intro ps
  induction ps with
  | nil => intro _; rfl
  | cons p ps ih =>
    intro h
    simp only [placeBetPlayers, if_neg (h p (List.mem_cons_self p ps))]
    rw [ih fun q hq => h q (List.mem_cons_of_mem p hq)]
    rfl

theorem placeBetPlayers_seated (pid : String) (amt : Int) (p : Player)
    (hp : p.id = pid) :
    ∀ pre post : List Player, (∀ q ∈ pre, q.id ≠ pid) →
      placeBetPlayers (pre ++ p :: post) pid amt =
        if p.balance < amt then none
        else some (pre ++ {p with bet := amt, balance := p.balance - amt} :: post) := by
  intro pre
  induction pre with
  | nil =>
    intro post _
    simp [placeBetPlayers, hp]
  | cons q pre ih =>
    intro post h
    simp only [List.cons_append, placeBetPlayers, List.append_eq,
      if_neg (h q (List.mem_cons_self q pre))]
    rw [ih post fun r hr => h r (List.mem_cons_of_mem q hr)]
    split <;> rfl

theorem placeBetPlayers_some (pid : String) (amt : Int) :
    ∀ ps ps' : List Player, placeBetPlayers ps pid amt = some ps' →
      ∃ pre p post, ps = pre ++ p :: post ∧ (∀ q ∈ pre, q.id ≠ pid) ∧
        p.id = pid ∧ ¬p.balance < amt ∧
        ps' = pre ++ {p with bet := amt, balance := p.balance - amt} :: post := by
  intro ps
  induction ps with
  | nil => intro ps' h; cases h
  | cons p ps ih =>
    intro ps' h
    simp only [placeBetPlayers] at h
    by_cases hid : p.id = pid
    · rw [if_pos hid] at h
      by_cases hb : p.balance < amt
      · rw [if_pos hb] at h; cases h
      · rw [if_neg hb] at h
        refine ⟨[], p, ps, by simp, by simp, hid, hb, ?_⟩
        simpa using h.symm
    · rw [if_neg hid] at h
      obtain ⟨ps'', hps'', hmap⟩ := Option.map_eq_some'.mp h
      obtain ⟨pre, q, post, h1, h2, h3, h4, h5⟩ := ih ps'' hps''
      exact ⟨p :: pre, q, post, by simp [h1], by
        intro r hr
        rcases List.mem_cons.mp hr with h | h
        · subst h; exact hid
        · exact h2 r h, h3, h4, by simp [← hmap, h5]⟩

/-- C6: PlaceBet succeeds exactly when the game is Betting, the amount is
within `[minBet, maxBet]`, the player is seated and the amount is within
that player's balance; success records the bet and debits the balance by
exactly the amount, touching nothing else; every failure leaves the game
unchanged. -/
theorem c6_placeBet (g : BlackjackGame) (pid : String) (amt : Int) :
    ((PlaceBet g pid amt).2 = false → (PlaceBet g pid amt).1 = g) ∧
    ((PlaceBet g pid amt).2 = true → g.status = Betting ∧
      g.minBet ≤ amt ∧ amt ≤ g.maxBet ∧
      ∃ pre p post, g.players = pre ++ p :: post ∧ (∀ q ∈ pre, q.id ≠ pid) ∧
        p.id = pid ∧ amt ≤ p.balance ∧
        PlaceBet g pid amt =
          ({g with players :=
              pre ++ {p with bet := amt, balance := p.balance - amt} :: post}, true)) ∧
    (g.status = Betting → g.minBet ≤ amt → amt ≤ g.maxBet →
      ∀ pre p post, g.players = pre ++ p :: post → (∀ q ∈ pre, q.id ≠ pid) →
        p.id = pid → amt ≤ p.balance → (PlaceBet g pid amt).2 = true) := by
  refine ⟨?_, ?_, ?_⟩
  · intro hf
    unfold PlaceBet at hf ⊢
    split
    · rfl
    · split
      · rfl
      · split
        · rfl
        · simp_all
  · intro ht
    unfold PlaceBet at ht
    by_cases h1 : g.status ≠ Betting
    · rw [if_pos h1] at ht; cases ht
    · rw [if_neg h1] at ht
      by_cases h2 : amt < g.minBet ∨ amt > g.maxBet
      · rw [if_pos h2] at ht; cases ht
      · rw [if_neg h2] at ht
        push_neg at h1 h2
        refine ⟨h1, h2.1, h2.2, ?_⟩
        cases hps : placeBetPlayers g.players pid amt with
        | none => rw [hps] at ht; cases ht
        | some ps' =>
          obtain ⟨pre, p, post, hdec, hpre, hid, hbal, hps'⟩ :=
            placeBetPlayers_some pid amt g.players ps' hps
          refine ⟨pre, p, post, hdec, hpre, hid, by omega, ?_⟩
          unfold PlaceBet
          rw [if_neg (show ¬g.status ≠ Betting by simp [h1]),
            if_neg (by omega), hps, hps']
  · intro h1 h2 h3 pre p post hdec hpre hid hbal
    unfold PlaceBet
    rw [if_neg (by simp [h1]), if_neg (by omega), hdec,
      placeBetPlayers_seated pid amt p hid pre post hpre,
      if_neg (by omega)]

/-! ### Dealer phase (C5) -/

/-- If the dealer draw loop stops with a total still below 17, the deck
must have run out. -/
theorem dealerDraw_stop :
    ∀ d h : List Card, CalculateHandScore (dealerDraw d h).2 < 17 →
      (dealerDraw d h).1 = [] := by
  intro d
  induction d with
  | nil => intro h _; rfl
  | cons c rest ih =>
    intro h hlt
    by_cases hs : CalculateHandScore h < 17
    · simp only [dealerDraw, if_pos hs] at hlt ⊢
      exact ih _ hlt
    · simp only [dealerDraw, if_neg hs] at hlt
      exact absurd hlt hs

/-- The dealer draw loop does not draw at all once the total is 17 or
more. -/
theorem dealerDraw_no_draw (d h : List Card)
    (hs : ¬CalculateHandScore h < 17) : dealerDraw d h = (d, h) := by
  cases d with
  | nil => rfl
  | cons c rest => simp [dealerDraw, if_neg hs]

/-- Cards drawn by the dealer loop are face up. -/
theorem dealerDraw_faces :
    ∀ d h : List Card, (∀ c ∈ h, c.face = true) →
      ∀ c ∈ (dealerDraw d h).2, c.face = true := by
  intro d
  induction d with
  | nil => intro h hh; exact hh
  | cons c rest ih =>
    intro h hh
    by_cases hs : CalculateHandScore h < 17
    · simp only [dealerDraw, if_pos hs]
      refine ih _ fun c' hc' => ?_
      rcases List.mem_append.mp hc' with h1 | h1
      · exact hh c' h1
      · rcases List.mem_singleton.mp h1 with rfl; rfl
    · simp only [dealerDraw, if_neg hs]
      exact hh

/-- C5: the dealer phase flips every dealer card face up, keeps the score
equal to the recomputed score of the full dealer hand, draws exactly while
the total is below 17 (a total of 17 or more — soft or hard — draws
nothing, and a final total below 17 can only happen with an exhausted
deck), then settles every seat against the final dealer hand and marks the
game Completed; and a Hit that finds the deck empty fails, leaving the
whole game unchanged. -/
theorem c5_dealerTurn (g : BlackjackGame) :
    (DealerTurn g).status = Completed ∧
    (DealerTurn g).dealer.score = CalculateHandScore (DealerTurn g).dealer.hand ∧
    ((DealerTurn g).dealer.score < 17 → (DealerTurn g).deck.cards = []) ∧
    (∀ c ∈ (DealerTurn g).dealer.hand, c.face = true) ∧
    (¬CalculateHandScore (g.dealer.hand.map flipUp) < 17 →
      (DealerTurn g).dealer.hand = g.dealer.hand.map flipUp ∧
      (DealerTurn g).deck = g.deck) ∧
    (DealerTurn g).players = g.players.map
      (settlePlayer (DealerTurn g).dealer.hand.length (DealerTurn g).dealer.score) ∧
    (∀ pid, g.deck.cards = [] → Hit g pid = (g, none)) := by
  refine ⟨rfl, rfl, ?_, ?_, ?_, rfl, ?_⟩
  · intro hlt
    exact dealerDraw_stop g.deck.cards (g.dealer.hand.map flipUp) hlt
  · refine dealerDraw_faces g.deck.cards (g.dealer.hand.map flipUp) ?_
    intro c hc
    obtain ⟨c', _, rfl⟩ := List.mem_map.mp hc
    rfl
  · intro hs
    have h := dealerDraw_no_draw g.deck.cards (g.dealer.hand.map flipUp) hs
    constructor
    · show (dealerDraw g.deck.cards (g.dealer.hand.map flipUp)).2 = _
      rw [h]
    · show Deck.mk (dealerDraw g.deck.cards (g.dealer.hand.map flipUp)).1 = _
      rw [h]
  · intro pid hdeck
    by_cases hst : g.status = InProgress
    · simp [Hit, hst, hdeck]
    · simp [Hit, hst]

/-! ### Card conservation (C3) -/

theorem keysOf_append (a b : List Card) : keysOf (a ++ b) = keysOf a + keysOf b := by
  simp [keysOf]

theorem gameCards_eq (g : BlackjackGame) :
    gameCards g = keysOf g.deck.cards + keysOf g.dealer.hand +
      keysOf (handsCards g.players) := by
  simp [gameCards, keysOf]

theorem handsCards_cons (p : Player) (ps : List Player) :
    handsCards (p :: ps) = p.hand ++ handsCards ps := rfl

theorem settlePlayer_hand (L : Nat) (S : Int) (p : Player) :
    (settlePlayer L S p).hand = p.hand := by
  unfold settlePlayer; split_ifs <;> rfl

theorem settlePlayer_isActive (L : Nat) (S : Int) (p : Player) :
    (settlePlayer L S p).isActive = p.isActive := by
  unfold settlePlayer; split_ifs <;> rfl

theorem handsCards_map_settle (L : Nat) (S : Int) :
    ∀ ps : List Player, handsCards (ps.map (settlePlayer L S)) = handsCards ps := by
  intro ps
  induction ps with
  | nil => rfl
  | cons p ps ih =>
    simp only [List.map_cons, handsCards_cons, settlePlayer_hand, ih]

theorem determineWinners_gameCards (g : BlackjackGame) :
    gameCards (DetermineWinners g) = gameCards g := by
  rw [gameCards_eq, gameCards_eq]
  show keysOf g.deck.cards + keysOf g.dealer.hand +
      keysOf (handsCards (g.players.map _)) = _
  rw [handsCards_map_settle]

theorem keysOf_map_flipUp (h : List Card) : keysOf (h.map flipUp) = keysOf h := by
  simp only [keysOf, List.map_map]
  rfl

theorem dealerDraw_keys :
    ∀ d h : List Card,
      keysOf (dealerDraw d h).1 + keysOf (dealerDraw d h).2 = keysOf d + keysOf h := by
  intro d
  induction d with
  | nil => intro h; rfl
  | cons c rest ih =>
    intro h
    by_cases hs : CalculateHandScore h < 17
    · simp only [dealerDraw, if_pos hs]
      rw [ih (h ++ [flipUp c]), keysOf_append,
        show keysOf [flipUp c] = keysOf [c] from rfl,
        show keysOf (c :: rest) = keysOf [c] + keysOf rest from keysOf_append [c] rest]
      abel
    · simp only [dealerDraw, if_neg hs]

theorem drawIgnore_cons (c : Card) (l : List Card) :
    Deck.drawIgnoringError ⟨c :: l⟩ = (c, ⟨l⟩) := rfl

theorem dealToPlayers_spec :
    ∀ (ps : List Player) (d : Deck), 2 * ps.length ≤ d.cards.length →
      (dealToPlayers d ps).1.cards.length + 2 * ps.length = d.cards.length ∧
      keysOf (dealToPlayers d ps).1.cards + keysOf (handsCards (dealToPlayers d ps).2) =
        keysOf d.cards + keysOf (handsCards ps) := by
  intro ps
  induction ps with
  | nil => intro d _; exact ⟨by simp [dealToPlayers], rfl⟩
  | cons p ps ih =>
    intro d hd
    obtain ⟨cards⟩ := d
    match cards, hd with
    | c1 :: c2 :: rest, hd =>
      simp only [List.length_cons] at hd
      have hrest : 2 * ps.length ≤ rest.length := by omega
      obtain ⟨ihlen, ihkeys⟩ := ih ⟨rest⟩ hrest
      constructor
      · show (dealToPlayers ⟨rest⟩ ps).1.cards.length + 2 * (ps.length + 1) =
          rest.length + 1 + 1
        have ihlen' : (dealToPlayers ⟨rest⟩ ps).1.cards.length + 2 * ps.length =
          rest.length := ihlen
        omega
      · show keysOf (dealToPlayers ⟨rest⟩ ps).1.cards +
            keysOf ((p.hand ++ [{c1 with face := true}, {c2 with face := true}]) ++
              handsCards (dealToPlayers ⟨rest⟩ ps).2) =
          keysOf (c1 :: c2 :: rest) + keysOf (p.hand ++ handsCards (p :: ps).tail)
        rw [keysOf_append, keysOf_append,
          show keysOf [{c1 with face := true}, {c2 with face := true}] =
            keysOf [c1, c2] from rfl,
          show keysOf (c1 :: c2 :: rest) = keysOf [c1, c2] + keysOf rest from
            keysOf_append [c1, c2] rest,
          show (p :: ps).tail = ps from rfl, keysOf_append]
        calc keysOf (dealToPlayers ⟨rest⟩ ps).1.cards +
              (keysOf p.hand + keysOf [c1, c2] +
                keysOf (handsCards (dealToPlayers ⟨rest⟩ ps).2))
            = keysOf (dealToPlayers ⟨rest⟩ ps).1.cards +
                keysOf (handsCards (dealToPlayers ⟨rest⟩ ps).2) +
                keysOf p.hand + keysOf [c1, c2] := by abel
          _ = keysOf rest + keysOf (handsCards ps) + keysOf p.hand + keysOf [c1, c2] := by
                rw [ihkeys]
          _ = keysOf [c1, c2] + keysOf rest + (keysOf p.hand + keysOf (handsCards ps)) := by
                abel

theorem activateFirst_hands (ps : List Player) :
    handsCards (activateFirst ps) = handsCards ps := by
  cases ps <;> rfl

theorem dealInitialCards_gameCards (g : BlackjackGame)
    (h : 2 * g.players.length + 2 ≤ g.deck.cards.length) :
    gameCards (DealInitialCards g) = gameCards g := by
  obtain ⟨hlen, hkeys⟩ := dealToPlayers_spec g.players g.deck (by omega)
  rcases hr : dealToPlayers g.deck g.players with ⟨deck1, players1⟩
  rw [hr] at hlen hkeys
  obtain ⟨cards1⟩ := deck1
  have hlen' : cards1.length + 2 * g.players.length = g.deck.cards.length := hlen
  rcases cards1 with _ | ⟨d1, _ | ⟨d2, rest⟩⟩
  · simp only [List.length_nil] at hlen'; omega
  · simp only [List.length_cons, List.length_nil] at hlen'; omega
  · have hkeys' : keysOf (d1 :: d2 :: rest) + keysOf (handsCards players1) =
      keysOf g.deck.cards + keysOf (handsCards g.players) := hkeys
    rw [show keysOf (d1 :: d2 :: rest) = keysOf [d1, d2] + keysOf rest from
      keysOf_append [d1, d2] rest] at hkeys'
    simp only [DealInitialCards, hr]
    rw [gameCards_eq, gameCards_eq]
    show keysOf rest + keysOf (g.dealer.hand ++
        [{d1 with face := true}, {d2 with face := false}]) +
      keysOf (handsCards players1) = _
    rw [keysOf_append,
      show keysOf [{d1 with face := true}, {d2 with face := false}] =
        keysOf [d1, d2] from rfl]
    calc keysOf rest + (keysOf g.dealer.hand + keysOf [d1, d2]) +
          keysOf (handsCards players1)
        = keysOf [d1, d2] + keysOf rest + keysOf (handsCards players1) +
            keysOf g.dealer.hand := by abel
      _ = keysOf g.deck.cards + keysOf (handsCards g.players) +
            keysOf g.dealer.hand := by rw [← hkeys']
      _ = keysOf g.deck.cards + keysOf g.dealer.hand +
            keysOf (handsCards g.players) := by abel

theorem set_activate_hands :
    ∀ (ps : List Player) (i : Nat),
      handsCards (ps.set i {ps.getD i default with isActive := true}) =
        handsCards ps := by
  intro ps
  induction ps with
  | nil => intro i; rfl
  | cons p ps ih =>
    intro i
    cases i with
    | zero => rfl
    | succ i =>
      show handsCards (p :: ps.set i {ps.getD i default with isActive := true}) =
        handsCards (p :: ps)
      rw [handsCards_cons, handsCards_cons, ih i]

theorem dealerTurn_gameCards (g : BlackjackGame) :
    gameCards (DealerTurn g) = gameCards g := by
  show gameCards (DetermineWinners
    { g with deck := ⟨(dealerDraw g.deck.cards (g.dealer.hand.map flipUp)).1⟩,
             dealer := { hand := (dealerDraw g.deck.cards (g.dealer.hand.map flipUp)).2,
                         score := CalculateHandScore
                           (dealerDraw g.deck.cards (g.dealer.hand.map flipUp)).2 } }) =
    gameCards g
  rw [determineWinners_gameCards, gameCards_eq, gameCards_eq]
  show keysOf (dealerDraw g.deck.cards (g.dealer.hand.map flipUp)).1 +
      keysOf (dealerDraw g.deck.cards (g.dealer.hand.map flipUp)).2 +
      keysOf (handsCards g.players) = _
  rw [dealerDraw_keys, keysOf_map_flipUp]

theorem nextPlayer_gameCards (g : BlackjackGame) :
    gameCards (NextPlayer g) = gameCards g := by
  unfold NextPlayer
  cases hfind : findActiveFrom g.players
      ((g.currentPlayerIndex + 1) % g.players.length) g.players.length with
  | some i =>
    simp only [hfind]
    rw [gameCards_eq, gameCards_eq]
    show keysOf g.deck.cards + keysOf g.dealer.hand +
      keysOf (handsCards (g.players.set i
        {g.players.getD i default with isActive := true})) = _
    rw [set_activate_hands]
  | none =>
    simp only [hfind]
    exact dealerTurn_gameCards g

theorem hitUpdate_keys (pid : String) (c : Card) :
    ∀ (ps ps' : List Player) (b : Bool), hitUpdate ps pid c = some (ps', b) →
      keysOf (handsCards ps') = keysOf (handsCards ps) + keysOf [c] := by
  intro ps
  induction ps with
  | nil => intro ps' b h; cases h
  | cons p ps ih =>
    intro ps' b h
    simp only [hitUpdate] at h
    by_cases hcond : p.id = pid ∧ p.isActive = true ∧ p.status = PlayerActive
    · rw [if_pos hcond] at h
      by_cases hbust : 21 < CalculateHandScore (p.hand ++ [c])
      · rw [if_pos hbust] at h
        cases h
        simp only [handsCards_cons, keysOf_append]
        abel
      · rw [if_neg hbust] at h
        cases h
        simp only [handsCards_cons, keysOf_append]
        abel
    · rw [if_neg hcond] at h
      obtain ⟨r, hr, hmap⟩ := Option.map_eq_some'.mp h
      cases hmap
      simp only [handsCards_cons, keysOf_append, ih r.1 r.2 hr]
      abel

theorem hit_gameCards (g : BlackjackGame) (pid : String) :
    gameCards (Hit g pid).1 = gameCards g := by
  by_cases hst : g.status ≠ InProgress
  · simp [Hit, if_pos hst]
  · cases hdeck : g.deck.cards with
    | nil => simp [Hit, if_neg hst, hdeck]
    | cons c rest =>
      simp only [Hit, if_neg hst, hdeck]
      cases hupd : hitUpdate g.players pid (flipUp c) with
      | none => rfl
      | some r =>
        obtain ⟨ps, b⟩ := r
        simp only
        have hg' : gameCards {g with deck := ⟨rest⟩, players := ps} = gameCards g := by
          rw [gameCards_eq, gameCards_eq]
          show keysOf rest + keysOf g.dealer.hand + keysOf (handsCards ps) = _
          rw [hitUpdate_keys pid (flipUp c) g.players ps b hupd, hdeck,
            show keysOf (c :: rest) = keysOf [c] + keysOf rest from
              keysOf_append [c] rest,
            show keysOf [flipUp c] = keysOf [c] from rfl]
          abel
        cases b with
        | false => simpa using hg'
        | true =>
          show gameCards (NextPlayer {g with deck := ⟨rest⟩, players := ps}) = _
          rw [nextPlayer_gameCards]
          exact hg'

theorem standUpdate_hands (pid : String) :
    ∀ ps ps' : List Player, standUpdate ps pid = some ps' →
      handsCards ps' = handsCards ps := by
  intro ps
  induction ps with
  | nil => intro ps' h; cases h
  | cons p ps ih =>
    intro ps' h
    simp only [standUpdate] at h
    by_cases hcond : p.id = pid ∧ p.isActive = true ∧ p.status = PlayerActive
    · rw [if_pos hcond] at h
      cases h
      rfl
    · rw [if_neg hcond] at h
      obtain ⟨r, hr, hmap⟩ := Option.map_eq_some'.mp h
      cases hmap
      rw [handsCards_cons, handsCards_cons, ih r hr]

theorem stand_gameCards (g : BlackjackGame) (pid : String) :
    gameCards (Stand g pid).1 = gameCards g := by
  by_cases hst : g.status ≠ InProgress
  · simp [Stand, if_pos hst]
  · simp only [Stand, if_neg hst]
    cases hupd : standUpdate g.players pid with
    | none => rfl
    | some ps =>
      show gameCards (NextPlayer {g with players := ps}) = _
      rw [nextPlayer_gameCards, gameCards_eq, gameCards_eq]
      show keysOf g.deck.cards + keysOf g.dealer.hand + keysOf (handsCards ps) = _
      rw [standUpdate_hands pid g.players ps hupd]

theorem start_components (g : BlackjackGame)
    (h1 : ¬(g.status ≠ Betting ∨ g.players.length = 0))
    (h2 : ¬g.players.any fun p => p.bet == 0) :
    (Start g).1.deck = (DealInitialCards g).deck ∧
    (Start g).1.dealer = (DealInitialCards g).dealer ∧
    (Start g).1.players = activateFirst (DealInitialCards g).players ∧
    (Start g).2 = true := by
  unfold Start
  rw [if_neg h1, if_neg h2]
  exact ⟨rfl, rfl, rfl, rfl⟩

theorem start_gameCards (g : BlackjackGame)
    (h : 2 * g.players.length + 2 ≤ g.deck.cards.length) :
    gameCards (Start g).1 = gameCards g := by
  by_cases h1 : g.status ≠ Betting ∨ g.players.length = 0
  · unfold Start
    rw [if_pos h1]
  · by_cases h2 : g.players.any fun p => p.bet == 0
    · unfold Start
      rw [if_neg h1, if_pos h2]
    · obtain ⟨hdeck, hdealer, hplayers, _⟩ := start_components g h1 h2
      rw [gameCards_eq, hdeck, hdealer, hplayers, activateFirst_hands]
      have hd := dealInitialCards_gameCards g h
      rw [gameCards_eq (DealInitialCards g)] at hd
      exact hd

set_option maxRecDepth 100000 in
/-- C3 counterexample: the round `g26Ready` is built purely from engine
operations (26 players join while Waiting, the round is reset to a fresh
52-card deck, everyone bets); `Start` succeeds on it, but dealing needs 54
cards, the ignored draw failures put two copies of the zero card into
play, and the resulting deck ∪ hands multiset is not the 52-card set. -/
theorem c3_counterexample :
    (Start g26Ready).2 = true ∧ ¬gameCards (Start g26Ready).1 = fullDeckKeys := by
  constructor
  · decide
  · intro hEq
    have hcard := congrArg Multiset.card hEq
    revert hcard
    decide

/-- C3 (amended): the multiset of (suit, rank) pairs in the deck plus all
hands is preserved by every `Hit`, every `Stand` and the whole dealer
phase unconditionally, and by `Start` whenever the deck holds at least
`2·(number of seated players) + 2` cards (with a standard 52-card deck:
at most 25 seated players); `Start` on a shorter deck silently injects
zero-value cards, which is what the counterexample exhibits. -/
theorem c3_conservation :
    (∀ g : BlackjackGame, 2 * g.players.length + 2 ≤ g.deck.cards.length →
      gameCards (Start g).1 = gameCards g) ∧
    (∀ g pid, gameCards (Hit g pid).1 = gameCards g) ∧
    (∀ g pid, gameCards (Stand g pid).1 = gameCards g) ∧
    (∀ g, gameCards (DealerTurn g) = gameCards g) :=
  ⟨start_gameCards, hit_gameCards, stand_gameCards, dealerTurn_gameCards⟩

/-- Witness for C3: a concrete one-player round where `Start` succeeds and
conservation holds. -/
theorem c3_conservation_witness :
    2 * gBJ.players.length + 2 ≤ gBJ.deck.cards.length ∧
    gameCards (Start gBJ).1 = gameCards gBJ :=
  ⟨by decide, c3_conservation.1 gBJ (by decide)⟩

/-! ### Turn invariant (C4) -/



theorem countActive_cons (p : Player) (ps : List Player) :
    countActive (p :: ps) = (if p.isActive then 1 else 0) + countActive ps := by
  simp only [countActive, List.filter_cons]
  split <;> simp [Nat.add_comm]

theorem countActive_eq_zero (ps : List Player) :
    countActive ps = 0 ↔ ∀ p ∈ ps, p.isActive = false := by
  induction ps with
  | nil => simp [countActive]
  | cons p ps ih =>
    rw [countActive_cons]
    constructor
    · intro h q hq
      rcases List.mem_cons.mp hq with rfl | hq
      · by_cases hp : q.isActive
        · rw [if_pos hp] at h; omega
        · simpa using hp
      · exact (ih.mp (by omega)) q hq
    · intro h
      rw [if_neg (by simp [h p (List.mem_cons_self p ps)]), ih.mpr
        fun q hq => h q (List.mem_cons_of_mem p hq)]

theorem turnInv_of_completed (g : BlackjackGame) (h : g.status = Completed) :
    TurnInv g :=
  ⟨fun hb => absurd (h.symm.trans hb) (by decide),
   fun hb => absurd (h.symm.trans hb) (by decide)⟩

theorem findActiveFrom_some (ps : List Player) :
    ∀ fuel start i, 0 < ps.length → start < ps.length →
      findActiveFrom ps start fuel = some i →
      i < ps.length ∧ (ps.getD i default).status = PlayerActive := by
  intro fuel
  induction fuel with
  | zero => intro start i _ _ h; cases h
  | succ fuel ih =>
    intro start i hn hstart h
    simp only [findActiveFrom] at h
    by_cases hs : (ps.getD start default).status = PlayerActive
    · rw [if_pos hs] at h
      cases h
      exact ⟨hstart, hs⟩
    · rw [if_neg hs] at h
      exact ih ((start + 1) % ps.length) i hn (Nat.mod_lt _ hn) h

theorem countActive_set_activate :
    ∀ (ps : List Player) (i : Nat), i < ps.length →
      (∀ p ∈ ps, p.isActive = false) →
      countActive (ps.set i {ps.getD i default with isActive := true}) = 1 := by
  intro ps
  induction ps with
  | nil => intro i h _; simp at h
  | cons p ps ih =>
    intro i hi hall
    cases i with
    | zero =>
      show countActive ({p with isActive := true} :: ps) = 1
      rw [countActive_cons]
      show 1 + countActive ps = 1
      rw [(countActive_eq_zero ps).mpr fun q hq => hall q (List.mem_cons_of_mem p hq)]
    | succ i =>
      show countActive (p :: ps.set i {ps.getD i default with isActive := true}) = 1
      rw [countActive_cons, if_neg (by simp [hall p (List.mem_cons_self p ps)]),
        ih i (by simpa using hi) fun q hq => hall q (List.mem_cons_of_mem p hq)]

theorem nextPlayer_inv (g : BlackjackGame) (hst : g.status = InProgress)
    (hzero : countActive g.players = 0) : TurnInv (NextPlayer g) := by
  unfold NextPlayer
  cases hfind : findActiveFrom g.players
      ((g.currentPlayerIndex + 1) % g.players.length) g.players.length with
  | none =>
    simp only [hfind]
    exact turnInv_of_completed _ rfl
  | some i =>
    simp only [hfind]
    have hn : 0 < g.players.length := by
      rcases hps : g.players with _ | _
      · rw [hps] at hfind; cases hfind
      · simp [hps]
    obtain ⟨hi, _⟩ := findActiveFrom_some g.players g.players.length
      ((g.currentPlayerIndex + 1) % g.players.length) i hn (Nat.mod_lt _ hn) hfind
    constructor
    · intro hb
      exact absurd (hst.symm.trans hb) (by decide)
    · intro _
      exact countActive_set_activate g.players i hi
        ((countActive_eq_zero g.players).mp hzero)

theorem hitUpdate_countActive (pid : String) (c : Card) :
    ∀ (ps ps' : List Player) (b : Bool), hitUpdate ps pid c = some (ps', b) →
      (b = true → countActive ps' + 1 = countActive ps) ∧
      (b = false → countActive ps' = countActive ps) := by
  intro ps
  induction ps with
  | nil => intro ps' b h; cases h
  | cons p ps ih =>
    intro ps' b h
    simp only [hitUpdate] at h
    by_cases hcond : p.id = pid ∧ p.isActive = true ∧ p.status = PlayerActive
    · rw [if_pos hcond] at h
      by_cases hbust : 21 < CalculateHandScore (p.hand ++ [c])
      · rw [if_pos hbust] at h
        cases h
        refine ⟨fun _ => ?_, fun hb => absurd hb (by decide)⟩
        rw [countActive_cons, countActive_cons, if_pos hcond.2.1]
        norm_num [Nat.add_comm]
      · rw [if_neg hbust] at h
        cases h
        refine ⟨fun hb => absurd hb (by decide), fun _ => ?_⟩
        rw [countActive_cons, countActive_cons]
    · rw [if_neg hcond] at h
      obtain ⟨r, hr, hmap⟩ := Option.map_eq_some'.mp h
      cases hmap
      obtain ⟨ih1, ih2⟩ := ih r.1 r.2 hr
      by_cases hp : p.isActive = true
      · refine ⟨fun hb => ?_, fun hb => ?_⟩
        · rw [countActive_cons, countActive_cons]
          simp only [hp, if_pos]
          have := ih1 hb
          omega
        · rw [countActive_cons, countActive_cons]
          simp only [hp, if_pos]
          have := ih2 hb
          omega
      · refine ⟨fun hb => ?_, fun hb => ?_⟩
        · rw [countActive_cons, countActive_cons]
          simp only [hp, if_neg]
          have := ih1 hb
          omega
        · rw [countActive_cons, countActive_cons]
          simp only [hp, if_neg]
          have := ih2 hb
          omega

theorem standUpdate_countActive (pid : String) :
    ∀ ps ps' : List Player, standUpdate ps pid = some ps' →
      countActive ps' + 1 = countActive ps := by
  intro ps
  induction ps with
  | nil => intro ps' h; cases h
  | cons p ps ih =>
    intro ps' h
    simp only [standUpdate] at h
    by_cases hcond : p.id = pid ∧ p.isActive = true ∧ p.status = PlayerActive
    · rw [if_pos hcond] at h
      cases h
      rw [countActive_cons, countActive_cons, if_pos hcond.2.1]
      norm_num [Nat.add_comm]
    · rw [if_neg hcond] at h
      obtain ⟨r, hr, hmap⟩ := Option.map_eq_some'.mp h
      cases hmap
      rw [countActive_cons, countActive_cons]
      have := ih r hr
      by_cases hp : p.isActive = true
      · simp only [hp, if_pos]
        omega
      · simp only [hp, if_neg]
        omega

theorem hit_inv (g : BlackjackGame) (pid : String) (hInv : TurnInv g) :
    TurnInv (Hit g pid).1 := by
  by_cases hst : g.status ≠ InProgress
  · simp only [Hit, if_pos hst]
    exact hInv
  · have hstEq : g.status = InProgress := not_not.mp hst
    cases hdeck : g.deck.cards with
    | nil =>
      simp only [Hit, if_neg hst, hdeck]
      exact hInv
    | cons c rest =>
      simp only [Hit, if_neg hst, hdeck]
      cases hupd : hitUpdate g.players pid (flipUp c) with
      | none => exact hInv
      | some r =>
        obtain ⟨ps, b⟩ := r
        obtain ⟨hb1, hb2⟩ := hitUpdate_countActive pid (flipUp c) g.players ps b hupd
        have hcount : countActive g.players = 1 := hInv.2 hstEq
        cases b with
        | false =>
          refine ⟨fun hb => absurd (hstEq.symm.trans hb) (by decide), fun _ => ?_⟩
          show countActive ps = 1
          rw [hb2 rfl, hcount]
        | true =>
          show TurnInv (NextPlayer {g with deck := ⟨rest⟩, players := ps})
          refine nextPlayer_inv _ hstEq ?_
          show countActive ps = 0
          have := hb1 rfl
          omega

theorem stand_inv (g : BlackjackGame) (pid : String) (hInv : TurnInv g) :
    TurnInv (Stand g pid).1 := by
  by_cases hst : g.status ≠ InProgress
  · simp only [Stand, if_pos hst]
    exact hInv
  · have hstEq : g.status = InProgress := not_not.mp hst
    simp only [Stand, if_neg hst]
    cases hupd : standUpdate g.players pid with
    | none => exact hInv
    | some ps =>
      show TurnInv (NextPlayer {g with players := ps})
      refine nextPlayer_inv _ hstEq ?_
      show countActive ps = 0
      have h1 := standUpdate_countActive pid g.players ps hupd
      have hcount : countActive g.players = 1 := hInv.2 hstEq
      omega

theorem countActive_dealToPlayers :
    ∀ (ps : List Player) (d : Deck),
      countActive (dealToPlayers d ps).2 = countActive ps := by
  intro ps
  induction ps with
  | nil => intro d; rfl
  | cons p ps ih =>
    intro d
    show countActive (_ :: (dealToPlayers _ ps).2) = _
    rw [countActive_cons, countActive_cons, ih]

theorem dealToPlayers_players_length :
    ∀ (ps : List Player) (d : Deck), (dealToPlayers d ps).2.length = ps.length := by
  intro ps
  induction ps with
  | nil => intro d; rfl
  | cons p ps ih =>
    intro d
    show (_ :: (dealToPlayers _ ps).2).length = _
    rw [List.length_cons, ih, List.length_cons]

theorem countActive_activateFirst (ps : List Player) (hne : ps ≠ [])
    (hzero : countActive ps = 0) : countActive (activateFirst ps) = 1 := by
  cases ps with
  | nil => exact absurd rfl hne
  | cons p ps =>
    show countActive ({p with isActive := true} :: ps) = 1
    rw [countActive_cons]
    show 1 + countActive ps = 1
    rw [countActive_cons] at hzero
    omega

theorem start_inv (g : BlackjackGame) (hInv : TurnInv g) : TurnInv (Start g).1 := by
  by_cases h1 : g.status ≠ Betting ∨ g.players.length = 0
  · unfold Start
    rw [if_pos h1]
    exact hInv
  · by_cases h2 : g.players.any fun p => p.bet == 0
    · unfold Start
      rw [if_neg h1, if_pos h2]
      exact hInv
    · obtain ⟨hdeck, hdealer, hplayers, hsucc⟩ := start_components g h1 h2
      have hstatus : (Start g).1.status = InProgress := by
        unfold Start
        rw [if_neg h1, if_neg h2]
      have hBetting : g.status = Betting := by
        by_contra hb
        exact h1 (Or.inl hb)
      have hne : g.players.length ≠ 0 := fun h0 => h1 (Or.inr h0)
      constructor
      · intro hb
        exact absurd (hstatus.symm.trans hb) (by decide)
      · intro _
        rw [hplayers]
        refine countActive_activateFirst _ ?_ ?_
        · show (dealToPlayers g.deck g.players).2 ≠ []
          intro hnil
          have hl := dealToPlayers_players_length g.players g.deck
          rw [hnil] at hl
          simp at hl
          omega
        · show countActive (dealToPlayers g.deck g.players).2 = 0
          rw [countActive_dealToPlayers]
          exact hInv.1 hBetting

/-- C4 counterexample: `gRemoved` is reached purely through engine
operations (two players join, round reset, both bet, `Start` makes seat
"a" the turn holder) followed by `RemovePlayer "a"` mid-round: the game is
still InProgress, a seat remains, yet no seat holds the turn flag — and
the dealer phase has not begun (it would have set status Completed). -/
theorem c4_counterexample :
    gRemoved.status = InProgress ∧ gRemoved.players.length = 1 ∧
    countActive gRemoved.players = 0 := by
  decide

/-- C4 (amended): the turn invariant — no active seat while Betting,
exactly one active seat while InProgress — is preserved by `Start`, by
every `Hit` and `Stand`, and by the turn-advance scan when it runs in its
calling context (InProgress, no seat active: it either activates exactly
one seat or completes the game via the dealer phase). `RemovePlayer` is
not among the preservers: removing the turn holder mid-round leaves an
InProgress state with zero active seats, as the counterexample shows. -/
theorem c4_turn_invariant (g : BlackjackGame) (hInv : TurnInv g) :
    TurnInv (Start g).1 ∧
    (∀ pid, TurnInv (Hit g pid).1) ∧
    (∀ pid, TurnInv (Stand g pid).1) ∧
    (g.status = InProgress → countActive g.players = 0 →
      TurnInv (NextPlayer g)) :=
  ⟨start_inv g hInv, fun pid => hit_inv g pid hInv,
   fun pid => stand_inv g pid hInv, fun h1 h2 => nextPlayer_inv g h1 h2⟩

/-- Witness for C4: the concrete one-player betting state `gBJ` satisfies
the invariant and keeps it across a successful `Start`. -/
theorem c4_turn_invariant_witness :
    TurnInv gBJ ∧ TurnInv (Start gBJ).1 :=
  ⟨by decide, (c4_turn_invariant gBJ (by decide)).1⟩

/-! ### Round reset (C9) -/

/-- C9: from a Completed game, PrepareForNextRound installs the freshly
shuffled deck — any permutation of the 52-card set, so 52 cards with the
full identity multiset — empties the dealer's hand and zeroes its score,
maps every seat to the same seat with empty hand, score 0, status Active,
bet 0 and turn flag clear while preserving id, name and exact balance,
and moves the game to Betting. -/
theorem c9_prepareForNextRound (g : BlackjackGame) (d : List Card)
    (hperm : d.Perm NewDeck.cards) (_hst : g.status = Completed) :
    (PrepareForNextRound g d).status = Betting ∧
    (PrepareForNextRound g d).deck.cards.length = 52 ∧
    keysOf (PrepareForNextRound g d).deck.cards = fullDeckKeys ∧
    (PrepareForNextRound g d).dealer.hand = [] ∧
    (PrepareForNextRound g d).dealer.score = 0 ∧
    (PrepareForNextRound g d).players.length = g.players.length ∧
    (∀ (i : Nat) (p : Player), g.players[i]? = some p →
      ∃ q : Player, (PrepareForNextRound g d).players[i]? = some q ∧
        q.id = p.id ∧ q.name = p.name ∧ q.balance = p.balance ∧ q.hand = [] ∧
        q.score = 0 ∧ q.status = PlayerActive ∧ q.bet = 0 ∧ q.isActive = false) := by
  refine ⟨rfl, ?_, ?_, rfl, rfl, ?_, ?_⟩
  · show d.length = 52
    rw [hperm.length_eq]
    rfl
  · show keysOf d = fullDeckKeys
    exact Multiset.coe_eq_coe.mpr (hperm.map cardKey)
  · show (g.players.map _).length = _
    rw [List.length_map]
  · intro i p hp
    refine ⟨resetSeat p, ?_, rfl, rfl, rfl, rfl, rfl, rfl, rfl, rfl⟩
    show (g.players.map _)[i]? = _
    rw [List.getElem?_map, hp]
    rfl

/-- Witness for C9: resetting the concrete Completed game `gDone` with the
identity shuffle. -/
theorem c9_prepareForNextRound_witness :
    (PrepareForNextRound gDone NewDeck.cards).status = Betting ∧
    (PrepareForNextRound gDone NewDeck.cards).deck.cards.length = 52 :=
  ⟨(c9_prepareForNextRound gDone NewDeck.cards (List.Perm.refl _) rfl).1,
   (c9_prepareForNextRound gDone NewDeck.cards (List.Perm.refl _) rfl).2.1⟩

/-! ### Dealt blackjack deadlock (C10) -/

theorem start_success_inversion (g : BlackjackGame) (hsucc : (Start g).2 = true) :
    ¬(g.status ≠ Betting ∨ g.players.length = 0) ∧
    ¬g.players.any fun p => p.bet == 0 := by
  by_cases h1 : g.status ≠ Betting ∨ g.players.length = 0
  · unfold Start at hsucc
    rw [if_pos h1] at hsucc
    cases hsucc
  · by_cases h2 : g.players.any fun p => p.bet == 0
    · unfold Start at hsucc
      rw [if_neg h1, if_pos h2] at hsucc
      cases hsucc
    · exact ⟨h1, h2⟩

theorem start_status_of_success (g : BlackjackGame)
    (h1 : ¬(g.status ≠ Betting ∨ g.players.length = 0))
    (h2 : ¬g.players.any fun p => p.bet == 0) :
    (Start g).1.status = InProgress := by
  unfold Start
  rw [if_neg h1, if_neg h2]

theorem dealToPlayers_flags :
    ∀ (ps : List Player) (d : Deck), (∀ p ∈ ps, p.isActive = false) →
      ∀ q ∈ (dealToPlayers d ps).2, q.isActive = false := by
  intro ps
  induction ps with
  | nil => intro d _ q hq; cases hq
  | cons p ps ih =>
    intro d h q hq
    rcases List.mem_cons.mp hq with rfl | hq
    · exact h p (List.mem_cons_self p ps)
    · exact ih _ (fun r hr => h r (List.mem_cons_of_mem p hr)) q hq

theorem dealToPlayers_blackjack :
    ∀ (ps : List Player) (d : Deck), ∀ q ∈ (dealToPlayers d ps).2,
      q.score = 21 → q.status = PlayerBlackjack := by
  intro ps
  induction ps with
  | nil => intro d q hq; cases hq
  | cons p ps ih =>
    intro d q hq hs
    rcases List.mem_cons.mp hq with rfl | hq
    · show (if CalculateHandScore _ = 21 then PlayerBlackjack else p.status) =
        PlayerBlackjack
      rw [if_pos hs]
    · exact ih _ q hq hs

theorem hitUpdate_none_of (pid : String) (c : Card) :
    ∀ ps : List Player,
      (∀ p ∈ ps, ¬(p.isActive = true ∧ p.status = PlayerActive)) →
      hitUpdate ps pid c = none := by
  intro ps
  induction ps with
  | nil => intro _; rfl
  | cons p ps ih =>
    intro h
    simp only [hitUpdate,
      if_neg (fun hc : p.id = pid ∧ p.isActive = true ∧ p.status = PlayerActive =>
        h p (List.mem_cons_self p ps) ⟨hc.2.1, hc.2.2⟩)]
    rw [ih fun q hq => h q (List.mem_cons_of_mem p hq)]
    rfl

theorem standUpdate_none_of (pid : String) :
    ∀ ps : List Player,
      (∀ p ∈ ps, ¬(p.isActive = true ∧ p.status = PlayerActive)) →
      standUpdate ps pid = none := by
  intro ps
  induction ps with
  | nil => intro _; rfl
  | cons p ps ih =>
    intro h
    simp only [standUpdate,
      if_neg (fun hc : p.id = pid ∧ p.isActive = true ∧ p.status = PlayerActive =>
        h p (List.mem_cons_self p ps) ⟨hc.2.1, hc.2.2⟩)]
    rw [ih fun q hq => h q (List.mem_cons_of_mem p hq)]
    rfl

theorem hit_noop (g : BlackjackGame) (pid : String)
    (h : ∀ p ∈ g.players, ¬(p.isActive = true ∧ p.status = PlayerActive)) :
    Hit g pid = (g, none) := by
  by_cases hst : g.status ≠ InProgress
  · simp only [Hit, if_pos hst]
  · cases hdeck : g.deck.cards with
    | nil => simp only [Hit, if_neg hst, hdeck]
    | cons c rest =>
      simp only [Hit, if_neg hst, hdeck, hitUpdate_none_of pid (flipUp c) g.players h]

theorem stand_noop (g : BlackjackGame) (pid : String)
    (h : ∀ p ∈ g.players, ¬(p.isActive = true ∧ p.status = PlayerActive)) :
    Stand g pid = (g, false) := by
  by_cases hst : g.status ≠ InProgress
  · simp only [Stand, if_pos hst]
  · simp only [Stand, if_neg hst, standUpdate_none_of pid g.players h]

/-- C10: when `Start` succeeds and the first seat's two dealt cards total
21 (so its status becomes Blackjack), that seat is nevertheless handed the
turn flag; from that state every `Hit` and every `Stand`, by any player,
fails and changes nothing (both require the acting seat to be
simultaneously flagged active and of status Active), so no sequence of
Hit/Stand moves ever changes the state and the game stays InProgress —
the dealer phase and Completed are unreachable through Hit/Stand alone. -/
theorem c10_blackjack_deadlock (g : BlackjackGame)
    (hflags : ∀ p ∈ g.players, p.isActive = false)
    (hsucc : (Start g).2 = true)
    (hscore : ((Start g).1.players.headD default).score = 21) :
    ((Start g).1.players.headD default).status = PlayerBlackjack ∧
    ((Start g).1.players.headD default).isActive = true ∧
    (∀ pid, Hit (Start g).1 pid = ((Start g).1, none) ∧
      Stand (Start g).1 pid = ((Start g).1, false)) ∧
    (∀ ms : List Move, applyMoves (Start g).1 ms = (Start g).1) ∧
    (Start g).1.status = InProgress := by
  obtain ⟨h1, h2⟩ := start_success_inversion g hsucc
  obtain ⟨_, _, hplayers, _⟩ := start_components g h1 h2
  have hne : (dealToPlayers g.deck g.players).2 ≠ [] := by
    intro hnil
    have hl := dealToPlayers_players_length g.players g.deck
    rw [hnil] at hl
    simp at hl
    exact h1 (Or.inr hl.symm)
  rcases hdealt : (dealToPlayers g.deck g.players).2 with _ | ⟨q0, t⟩
  · exact absurd hdealt hne
  · have hplayers' : (Start g).1.players = {q0 with isActive := true} :: t := by
      rw [hplayers]
      show activateFirst (dealToPlayers g.deck g.players).2 = _
      rw [hdealt]
      rfl
    have hhead : (Start g).1.players.headD default = {q0 with isActive := true} := by
      rw [hplayers']
      rfl
    have hq0score : q0.score = 21 := by
      rw [hhead] at hscore
      exact hscore
    have hq0bj : q0.status = PlayerBlackjack :=
      dealToPlayers_blackjack g.players g.deck q0
        (hdealt ▸ List.mem_cons_self q0 t) hq0score
    have hnoact : ∀ p ∈ (Start g).1.players,
        ¬(p.isActive = true ∧ p.status = PlayerActive) := by
      intro p hp
      rw [hplayers'] at hp
      rcases List.mem_cons.mp hp with rfl | hp
      · intro hc
        have : PlayerBlackjack = PlayerActive := hq0bj.symm.trans hc.2
        exact absurd this (by decide)
      · intro hc
        have hpin : p ∈ (dealToPlayers g.deck g.players).2 := by
          rw [hdealt]
          exact List.mem_cons_of_mem q0 hp
        rw [dealToPlayers_flags g.players g.deck hflags p hpin] at hc
        cases hc.1
    refine ⟨?_, ?_, ?_, ?_, start_status_of_success g h1 h2⟩
    · rw [hhead]
      show q0.status = PlayerBlackjack
      exact hq0bj
    · rw [hhead]
    · intro pid
      exact ⟨hit_noop (Start g).1 pid hnoact, stand_noop (Start g).1 pid hnoact⟩
    · intro ms
      induction ms with
      | nil => rfl
      | cons m ms ih =>
        cases m with
        | hit pid =>
          show applyMoves (Hit (Start g).1 pid).1 ms = _
          rw [hit_noop (Start g).1 pid hnoact]
          exact ih
        | stand pid =>
          show applyMoves (Stand (Start g).1 pid).1 ms = _
          rw [stand_noop (Start g).1 pid hnoact]
          exact ih

/-- Witness for C10: in `gBJ` the single seat is dealt an ace and a king,
`Start` succeeds, and hitting is a failing no-op. -/
theorem c10_blackjack_deadlock_witness :
    (∀ p ∈ gBJ.players, p.isActive = false) ∧ (Start gBJ).2 = true ∧
    ((Start gBJ).1.players.headD default).score = 21 ∧
    Hit (Start gBJ).1 "a" = ((Start gBJ).1, none) :=
  ⟨by decide, by decide, by decide,
   ((c10_blackjack_deadlock gBJ (by decide) (by decide) (by decide)).2.2.1 "a").1⟩

/-! ### Witnesses for the remaining conditional theorems -/

/-- Witness for C5: in `gEmptyDeck` the deck is empty and hitting is a
failing no-op. -/
theorem c5_dealerTurn_witness :
    gEmptyDeck.deck.cards = [] ∧ Hit gEmptyDeck "a" = (gEmptyDeck, none) :=
  ⟨rfl, (c5_dealerTurn gEmptyDeck).2.2.2.2.2.2 "a" rfl⟩

/-- Witness for C6: in the Betting game `gBetting` (minBet 10, balance
100), a bet of 5 fails and changes nothing, while a bet of 50 succeeds. -/
theorem c6_placeBet_witness :
    (PlaceBet gBetting "a" 5).1 = gBetting ∧ (PlaceBet gBetting "a" 50).2 = true :=
  ⟨(c6_placeBet gBetting "a" 5).1 (by decide),
   (c6_placeBet gBetting "a" 50).2.2 (by decide) (by decide) (by decide)
     [] (mkSeat "a" PlayerActive 0 100 false) [] rfl (by simp) rfl (by decide)⟩

/-- Witness for C7: the blackjack seat of `gDealer3` (dealer three-card
21) is paid 3:2. -/
theorem c7_blackjack_vs_dealer21_witness :
    (DetermineWinners gDealer3).players[0]? =
      some {mkSeat "a" PlayerBlackjack 10 0 false with balance := 25} :=
  (c7_blackjack_vs_dealer21 gDealer3 0
    (mkSeat "a" PlayerBlackjack 10 0 false) rfl rfl).1 (by decide)

/-- Witness for C8: re-adding the seated player of the Completed game
`gDone` returns the existing seat and changes nothing. -/
theorem c8_addPlayer_witness :
    AddPlayer gDone "a" "n" 7 =
      (gDone, some {mkSeat "a" PlayerStood 10 150 false with
        hand := [mkCard Hearts Ten, mkCard Hearts Nine], score := 19}) :=
  ((c8_addPlayer gDone "a" "n" 7).1
    [] {mkSeat "a" PlayerStood 10 150 false with
      hand := [mkCard Hearts Ten, mkCard Hearts Nine], score := 19} [] rfl
    (by simp) rfl).1 (by decide)

end CardGames
